import Mathlib

/-!
Shallow embedding of the pixel-synthesis core of the image CLI tool
(`src/exercise/z_final_project/src/main.rs`): the stripe generator
(`generate`), the escape-time fractal renderer (`fractal`), and the
color-string parsing done in `main` for the `generate` subcommand.

Modelling conventions:
* Rust `u32`/`usize` values are `Nat`; `u8` channel values are `Nat`
  (the color parser only produces values `≤ 255`).
* A Rust panic (division by zero, index out of bounds, `unwrap` on a
  failed parse) is `none`; a pixel loop that would panic makes the whole
  buffer computation `none` (`mapO` is a fail-fast traversal).
* `f32` arithmetic in the fractal is modelled over `ℚ` with the exact
  constants written in the source (`0.3`, `3.0/800`, `-1.5`, `-0.4`,
  `0.6`); the escape test `z.norm() <= 2.0` is modelled as
  `normSq z ≤ 4`, equivalent because both sides are nonnegative and
  squaring is monotone.
* The Rust float-to-integer `as u8` cast saturates; `u8OfRat`
  reproduces that: truncate, then clamp into `[0, 255]`.
-/

/-- An RGB color, from `struct Color { red: u8, green: u8, blue: u8 }`. -/
structure Color where
  red : Nat
  green : Nat
  blue : Nat
  deriving DecidableEq

/-- The two stripe orientations of `enum StripeOrientation`. -/
inductive StripeOrientation where
  | Vertical
  | Horizontal
  deriving DecidableEq

/-- Length of the axis that `generate` partitions into bands:
`width` for `Vertical`, `height` for `Horizontal`. -/
def axisLen (o : StripeOrientation) (width height : Nat) : Nat :=
  match o with
  | .Vertical => width
  | .Horizontal => height

/-- Pixel coordinate along the partitioned axis: `x` for `Vertical`,
`y` for `Horizontal`. -/
def axisCoord (o : StripeOrientation) (x y : Nat) : Nat :=
  match o with
  | .Vertical => x
  | .Horizontal => y

/-- Band-index formula of `generate`: `c / (axis_length / N)` with
floor division, `N` being the number of colors. -/
def bandIndex (axis n c : Nat) : Nat :=
  c / (axis / n)

/-- Per-pixel color computation of `generate`
(`colors[c / (axis_length / colors.len())]`), with each Rust panic
modelled as `none`: `colors.len() = 0` makes `axis_length / 0` panic,
a zero band width makes `c / 0` panic, and an out-of-range index makes
`colors[color_index]` panic. -/
def stripePixel (width height : Nat) (colors : List Color)
    (o : StripeOrientation) (x y : Nat) : Option Color :=
  if colors.length = 0 then none
  else if axisLen o width height / colors.length = 0 then none
  else colors[bandIndex (axisLen o width height) colors.length (axisCoord o x y)]?

/-- Fail-fast `Option` traversal: models a loop that panics at its
first failing iteration. -/
def mapO {α β : Type} (f : α → Option β) : List α → Option (List β)
  | [] => some []
  | a :: l => (f a).bind fun b => (mapO f l).map fun bs => b :: bs

/-- The full `generate` pixel buffer, row-major as
`enumerate_pixels_mut` iterates (rows indexed by `y`, columns by `x`):
`some` buffer when every pixel computes, `none` when any pixel panics. -/
def generateBuf (width height : Nat) (colors : List Color)
    (o : StripeOrientation) : Option (List (List Color)) :=
  mapO (fun y => mapO (fun x => stripePixel width height colors o x y) (List.range width))
    (List.range height)

/-- Complex multiplication on `(re, im)` pairs, as `num_complex` does it. -/
def cmul (a b : ℚ × ℚ) : ℚ × ℚ :=
  (a.1 * b.1 - a.2 * b.2, a.1 * b.2 + a.2 * b.1)

/-- Complex addition on `(re, im)` pairs. -/
def cadd (a b : ℚ × ℚ) : ℚ × ℚ :=
  (a.1 + b.1, a.2 + b.2)

/-- Squared norm of a complex point; `z.norm() <= 2.0` in the source is
`normSq z ≤ 4` here. -/
def normSq (z : ℚ × ℚ) : ℚ :=
  z.1 * z.1 + z.2 * z.2

/-- The fixed constant `c = Complex::new(-0.4, 0.6)` of `fractal`. -/
def fractalC : ℚ × ℚ :=
  (-(2/5), 3/5)

/-- One loop body step of `fractal`: `z = z * z + c`. -/
def fractalStep (z : ℚ × ℚ) : ℚ × ℚ :=
  cadd (cmul z z) fractalC

/-- The scale `scale_x = 3.0 / width` with the fixed `width = 800`. -/
def scaleX : ℚ := 3 / 800

/-- The scale `scale_y = 3.0 / height` with the fixed `height = 800`. -/
def scaleY : ℚ := 3 / 800

/-- Starting point of the orbit for pixel `(x, y)`:
`cx = y * scale_x - 1.5`, `cy = x * scale_y - 1.5` (the source swaps
`x` and `y` between pixel space and the complex plane). -/
def fractalZ0 (x y : Nat) : ℚ × ℚ :=
  ((y : ℚ) * scaleX - 3/2, (x : ℚ) * scaleY - 3/2)

/-- The `while green < 255 && z.norm() <= 2.0 { z = z * z + c; green += 1 }`
loop, with `fuel = 255 - green` so that the recursion is structural:
fuel `0` is exactly the exit case `green = 255`. -/
def greenLoop : Nat → ℚ × ℚ → Nat → Nat
  | 0, _, green => green
  | fuel + 1, z, green =>
    if normSq z ≤ 4 then greenLoop fuel (fractalStep z) (green + 1) else green

/-- Green channel of the fractal at pixel `(x, y)`: the loop starting
at `green = 0` with `z = z0`. -/
def fractalGreen (x y : Nat) : Nat :=
  greenLoop 255 (fractalZ0 x y) 0

/-- The orbit of pixel `(x, y)`: `k` applications of `z = z * z + c`
to the starting point. -/
def orbit (x y k : Nat) : ℚ × ℚ :=
  fractalStep^[k] (fractalZ0 x y)

/-- Rust float-to-`u8` `as` cast: truncate toward zero and saturate
into `[0, 255]` (for the nonnegative values reached here, truncation
is the floor). -/
def u8OfRat (q : ℚ) : Nat :=
  min 255 (Int.toNat ⌊q⌋)

/-- Red channel of the fractal: `(0.3 * x as f32) as u8`. -/
def fractalRed (x : Nat) : Nat :=
  u8OfRat (3/10 * (x : ℚ))

/-- Blue channel of the fractal: `(0.3 * y as f32) as u8`. -/
def fractalBlue (y : Nat) : Nat :=
  u8OfRat (3/10 * (y : ℚ))

/-- One pixel of the fractal image: `Rgb([red, green, blue])`. -/
def fractalPixel (x y : Nat) : Nat × Nat × Nat :=
  (fractalRed x, fractalGreen x y, fractalBlue y)

/-- The full 800×800 fractal buffer, row-major. -/
def fractalImage : List (List (Nat × Nat × Nat)) :=
  (List.range 800).map fun y => (List.range 800).map fun x => fractalPixel x y

/-- Rust `color_string.split(":")` on a single-character separator,
over the character list of the string: `""` splits to `[""]`, and each
`:` starts a new (possibly empty) group. -/
def splitCols : List Char → List (List Char)
  | [] => [[]]
  | c :: rest =>
    if c = ':' then [] :: splitCols rest
    else
      match splitCols rest with
      | [] => [[c]]
      | g :: gs => (c :: g) :: gs

/-- Decimal value of a digit list, most significant first. -/
def digitsVal (ds : List Char) : Nat :=
  ds.foldl (fun acc c => acc * 10 + (c.toNat - 48)) 0

/-- Rust `str::parse::<u8>()`: an optional leading `+`, then one or
more ASCII digits, and the value must fit in `u8`; anything else is an
error (`none`). -/
def parseU8 (cs : List Char) : Option Nat :=
  let ds := match cs with
    | '+' :: rest => rest
    | _ => cs
  if ds = [] then none
  else if ds.all Char.isDigit then
    if digitsVal ds ≤ 255 then some (digitsVal ds) else none
  else none

/-- The color-string closure in `main` for the `generate` command:
split on `:`, index components 0, 1, 2 (a panic — `none` — when fewer
than three exist), parse each as `u8` (a panic — `none` — on failure),
and build the `Color`; components beyond the third are never read. -/
def parseColor (cs : List Char) : Option Color :=
  ((splitCols cs)[0]?).bind fun v0 =>
  ((splitCols cs)[1]?).bind fun v1 =>
  ((splitCols cs)[2]?).bind fun v2 =>
  (parseU8 v0).bind fun r =>
  (parseU8 v1).bind fun g =>
  (parseU8 v2).map fun b => Color.mk r g b

/-- A successful `mapO` run determines each output element from the
corresponding input element. -/
theorem getElem?_of_mapO {α β : Type} {f : α → Option β} :
    ∀ {l : List α} {ys : List β}, mapO f l = some ys →
      ∀ i : Nat, ys[i]? = (l[i]?).bind f := by
  intro l
  induction l with
  | nil =>
    intro ys h i
    simp only [mapO, Option.some.injEq] at h
    subst h
    simp
  | cons a l ih =>
    intro ys h i
    simp only [mapO] at h
    cases hfa : f a with
    | none => rw [hfa] at h; simp at h
    | some b =>
      rw [hfa] at h
      cases hml : mapO f l with
      | none => rw [hml] at h; simp at h
      | some bs =>
        rw [hml] at h
        simp only [Option.some_bind, Option.map_some', Option.some.injEq] at h
        subst h
        cases i with
        | zero => simp [hfa]
        | succ j => simpa using ih hml j

/-- A successful `mapO` run preserves the length. -/
theorem length_of_mapO {α β : Type} {f : α → Option β} :
    ∀ {l : List α} {ys : List β}, mapO f l = some ys → ys.length = l.length := by
  intro l
  induction l with
  | nil =>
    intro ys h
    simp only [mapO, Option.some.injEq] at h
    subst h
    rfl
  | cons a l ih =>
    intro ys h
    simp only [mapO] at h
    cases hfa : f a with
    | none => rw [hfa] at h; simp at h
    | some b =>
      rw [hfa] at h
      cases hml : mapO f l with
      | none => rw [hml] at h; simp at h
      | some bs =>
        rw [hml] at h
        simp only [Option.some_bind, Option.map_some', Option.some.injEq] at h
        subst h
        simp [ih hml]

/-- When every element maps to `some`, `mapO` is `List.map`. -/
theorem mapO_eq_map {α β : Type} {f : α → Option β} {g : α → β} :
    ∀ {l : List α}, (∀ a ∈ l, f a = some (g a)) → mapO f l = some (l.map g) := by
  intro l
  induction l with
  | nil => intro _; rfl
  | cons a l ih =>
    intro h
    have ha := h a (List.mem_cons_self a l)
    have hl := ih fun b hb => h b (List.mem_cons_of_mem a hb)
    simp [mapO, ha, hl]

/-- A failing head makes the whole `mapO` fail. -/
theorem mapO_cons_none {α β : Type} {f : α → Option β} {a : α} {l : List α}
    (h : f a = none) : mapO f (a :: l) = none := by
  simp [mapO, h]

/-- When `stripePixel` does produce a color, that color is the list
entry at the floor-division band index. -/
theorem stripePixel_eq_getElem? {width height : Nat} {colors : List Color}
    {o : StripeOrientation} {x y : Nat} {col : Color}
    (h : stripePixel width height colors o x y = some col) :
    colors[bandIndex (axisLen o width height) colors.length (axisCoord o x y)]? =
      some col := by
  by_cases h0 : colors.length = 0
  · simp [stripePixel, h0] at h
  · by_cases h1 : axisLen o width height / colors.length = 0
    · simp [stripePixel, h0, h1] at h
    · simpa [stripePixel, h0, h1] using h

/-- Characterization of the fractal loop: starting with `fuel` budget
and counter `g`, it either exhausts the budget with every visited point
inside radius 2, or stops after `e < fuel` steps at the first point
outside radius 2. -/
theorem greenLoop_spec : ∀ (fuel : Nat) (z : ℚ × ℚ) (g : Nat),
    (greenLoop fuel z g = g + fuel ∧ ∀ k < fuel, normSq (fractalStep^[k] z) ≤ 4) ∨
      (∃ e < fuel, greenLoop fuel z g = g + e ∧ 4 < normSq (fractalStep^[e] z) ∧
        ∀ k < e, normSq (fractalStep^[k] z) ≤ 4) := by
  intro fuel
  induction fuel with
  | zero =>
    intro z g
    left
    exact ⟨rfl, fun k hk => absurd hk (by omega)⟩
  | succ fuel ih =>
    intro z g
    by_cases hz : normSq z ≤ 4
    · have hstep : greenLoop (fuel + 1) z g = greenLoop fuel (fractalStep z) (g + 1) := by
        simp [greenLoop, hz]
      rcases ih (fractalStep z) (g + 1) with ⟨heq, hall⟩ | ⟨e, he, heq, hesc, hall⟩
      · left
        refine ⟨by rw [hstep, heq]; omega, fun k hk => ?_⟩
        cases k with
        | zero => simpa using hz
        | succ j =>
          rw [Function.iterate_succ_apply]
          exact hall j (by omega)
      · right
        refine ⟨e + 1, by omega, by rw [hstep, heq]; omega, ?_, fun k hk => ?_⟩
        · rw [Function.iterate_succ_apply]
          exact hesc
        · cases k with
          | zero => simpa using hz
          | succ j =>
            rw [Function.iterate_succ_apply]
            exact hall j (by omega)
    · right
      refine ⟨0, by omega, by simp [greenLoop, hz], by simpa using not_le.mp hz,
        fun k hk => absurd hk (by omega)⟩

/-- A single failing element makes the whole `mapO` fail. -/
theorem mapO_eq_none {α β : Type} {f : α → Option β} :
    ∀ {l : List α} {a : α}, a ∈ l → f a = none → mapO f l = none := by
  intro l
  induction l with
  | nil => intro a ha _; cases ha
  | cons b l ih =>
    intro a ha hfa
    rcases List.mem_cons.mp ha with rfl | hmem
    · simp [mapO, hfa]
    · cases hfb : f b with
      | none => simp [mapO, hfb]
      | some c => simp [mapO, hfb, ih hmem hfa]

/-- C1: whenever the Stripe Generator completes on positive dimensions
and a non-empty color list, the pixel at `(x, y)` is the color at band
index `c / (axis_length / N)` computed with floor division, where `c`
and the axis length are `x` and `width` for `Vertical`, `y` and
`height` for `Horizontal`. -/
theorem c1_band_assignment (width height : Nat) (colors : List Color)
    (o : StripeOrientation) (buf : List (List Color)) (x y : Nat)
    (hw : 0 < width) (hh : 0 < height) (hc : colors ≠ [])
    (hbuf : generateBuf width height colors o = some buf)
    (hx : x < width) (hy : y < height) :
    (buf[y]?).bind (fun row => row[x]?) =
      colors[bandIndex (axisLen o width height) colors.length (axisCoord o x y)]? := by
  have hlen : buf.length = height := by simpa using length_of_mapO hbuf
  have hys : y < buf.length := by omega
  obtain ⟨row, hrow⟩ : ∃ row, buf[y]? = some row := ⟨buf[y], List.getElem?_eq_getElem hys⟩
  have h1 := getElem?_of_mapO hbuf y
  simp only [List.getElem?_range hy, Option.some_bind] at h1
  rw [hrow] at h1
  have hrl : row.length = width := by simpa using length_of_mapO h1.symm
  have hxs : x < row.length := by omega
  obtain ⟨col, hcol⟩ : ∃ col, row[x]? = some col := ⟨row[x], List.getElem?_eq_getElem hxs⟩
  have h2 := getElem?_of_mapO h1.symm x
  simp only [List.getElem?_range hx, Option.some_bind] at h2
  rw [hcol] at h2
  simp only [hrow, Option.some_bind]
  rw [hcol]
  exact (stripePixel_eq_getElem? h2.symm).symm

/-- C1 witness: at width 4, height 2, two colors, Vertical, pixel
`(2, 1)` receives the color at band index `2 / (4 / 2) = 1`. -/
theorem c1_band_assignment_witness :
    (([[Color.mk 255 0 0, Color.mk 255 0 0, Color.mk 0 255 0, Color.mk 0 255 0],
        [Color.mk 255 0 0, Color.mk 255 0 0, Color.mk 0 255 0, Color.mk 0 255 0]] :
          List (List Color))[1]?).bind (fun row => row[2]?) =
      [Color.mk 255 0 0, Color.mk 0 255 0][bandIndex
        (axisLen StripeOrientation.Vertical 4 2)
        ([Color.mk 255 0 0, Color.mk 0 255 0].length)
        (axisCoord StripeOrientation.Vertical 2 1)]? :=
  c1_band_assignment 4 2 [Color.mk 255 0 0, Color.mk 0 255 0] StripeOrientation.Vertical
    [[Color.mk 255 0 0, Color.mk 255 0 0, Color.mk 0 255 0, Color.mk 0 255 0],
      [Color.mk 255 0 0, Color.mk 255 0 0, Color.mk 0 255 0, Color.mk 0 255 0]] 2 1
    (by decide) (by decide) (by decide) (by decide) (by decide) (by decide)

/-- C2 (amended): for positive dimensions and a non-empty color list
whose length divides the partitioned axis length, the Stripe Generator
completes, every pixel color comes from the supplied list, and the
band index is monotone in the coordinate along the partitioned axis. -/
theorem c2_divisible_bands (width height : Nat) (colors : List Color)
    (o : StripeOrientation) (hw : 0 < width) (hh : 0 < height) (hc : colors ≠ [])
    (hdvd : colors.length ∣ axisLen o width height) :
    (∃ buf, generateBuf width height colors o = some buf ∧
        ∀ (y x : Nat) (row : List Color) (col : Color),
          buf[y]? = some row → row[x]? = some col → col ∈ colors) ∧
      ∀ c d, c ≤ d →
        bandIndex (axisLen o width height) colors.length c ≤
          bandIndex (axisLen o width height) colors.length d := by
  have hn : 0 < colors.length := List.length_pos.mpr hc
  have haxis : 0 < axisLen o width height := by
    cases o with
    | Vertical => exact hw
    | Horizontal => exact hh
  have hq : 0 < axisLen o width height / colors.length :=
    Nat.div_pos (Nat.le_of_dvd haxis hdvd) hn
  have hidx : ∀ c < axisLen o width height,
      bandIndex (axisLen o width height) colors.length c < colors.length := by
    intro c hcax
    rw [bandIndex, Nat.div_lt_iff_lt_mul hq, Nat.mul_div_cancel' hdvd]
    exact hcax
  have hcoord : ∀ x y, x < width → y < height →
      axisCoord o x y < axisLen o width height := by
    intro x y hx hy
    cases o with
    | Vertical => exact hx
    | Horizontal => exact hy
  have hpix : ∀ x y, x < width → y < height →
      stripePixel width height colors o x y = some (colors.getD
        (bandIndex (axisLen o width height) colors.length (axisCoord o x y))
        (Color.mk 0 0 0)) := by
    intro x y hx hy
    have hin := hidx _ (hcoord x y hx hy)
    unfold stripePixel
    rw [if_neg (by omega), if_neg (by omega), List.getElem?_eq_getElem hin,
      List.getD_eq_getElem colors _ hin]
  refine ⟨⟨(List.range height).map fun y => (List.range width).map fun x =>
    colors.getD (bandIndex (axisLen o width height) colors.length (axisCoord o x y))
      (Color.mk 0 0 0), ?_, ?_⟩, ?_⟩
  · apply mapO_eq_map
    intro y hy
    apply mapO_eq_map
    intro x hx
    exact hpix x y (List.mem_range.mp hx) (List.mem_range.mp hy)
  · intro y x row col hrow hcol
    rw [List.getElem?_map] at hrow
    rcases Option.map_eq_some'.mp hrow with ⟨y0, hy0, hR⟩
    obtain ⟨hylt, hy0val⟩ := List.getElem?_eq_some.mp hy0
    rw [List.getElem_range] at hy0val
    subst hy0val
    subst hR
    rw [List.getElem?_map] at hcol
    rcases Option.map_eq_some'.mp hcol with ⟨x0, hx0, hC⟩
    obtain ⟨hxlt, hx0val⟩ := List.getElem?_eq_some.mp hx0
    rw [List.getElem_range] at hx0val
    subst hx0val
    subst hC
    have hyh : y < height := by simpa using hylt
    have hxw : x < width := by simpa using hxlt
    have hin := hidx _ (hcoord x y hxw hyh)
    rw [List.getD_eq_getElem colors _ hin]
    exact List.getElem_mem hin
  · intro c d hcd
    exact Nat.div_le_div_right hcd

/-- C2 witness: width 4, height 2, two colors, Vertical — 2 divides 4,
so the generator completes with colors from the list and a monotone
band index. -/
theorem c2_divisible_bands_witness :
    (∃ buf, generateBuf 4 2 [Color.mk 255 0 0, Color.mk 0 255 0]
        StripeOrientation.Vertical = some buf ∧
        ∀ (y x : Nat) (row : List Color) (col : Color),
          buf[y]? = some row → row[x]? = some col →
            col ∈ [Color.mk 255 0 0, Color.mk 0 255 0]) ∧
      ∀ c d, c ≤ d →
        bandIndex (axisLen StripeOrientation.Vertical 4 2)
            ([Color.mk 255 0 0, Color.mk 0 255 0].length) c ≤
          bandIndex (axisLen StripeOrientation.Vertical 4 2)
            ([Color.mk 255 0 0, Color.mk 0 255 0].length) d :=
  c2_divisible_bands 4 2 [Color.mk 255 0 0, Color.mk 0 255 0]
    StripeOrientation.Vertical (by decide) (by decide) (by decide) (by decide)

/-- C3 (amended): the Stripe Generator performs no up-front
validation. An empty color list with positive dimensions makes the
first pixel computation divide by zero (failure), while a zero width
or height completes successfully with an empty image, computing no
pixel and attempting no division. -/
theorem c3_no_validation :
    (∀ (width height : Nat) (o : StripeOrientation), 0 < width → 0 < height →
        generateBuf width height [] o = none) ∧
      (∀ (height : Nat) (colors : List Color) (o : StripeOrientation),
        generateBuf 0 height colors o = some (List.replicate height [])) ∧
      ∀ (width : Nat) (colors : List Color) (o : StripeOrientation),
        generateBuf width 0 colors o = some [] := by
  refine ⟨?_, ?_, ?_⟩
  · intro width height o hw hh
    have hrow : mapO (fun x => stripePixel width height [] o x 0)
        (List.range width) = none :=
      mapO_eq_none (List.mem_range.mpr hw) (by simp [stripePixel])
    exact mapO_eq_none (List.mem_range.mpr hh) hrow
  · intro height colors o
    have h1 : generateBuf 0 height colors o =
        some ((List.range height).map fun _ => ([] : List Color)) :=
      mapO_eq_map fun y hy => rfl
    rw [h1, List.map_const', List.length_range]
  · intro width colors o
    rfl

/-- C3 witness: a 1×1 request with an empty color list fails at the
first pixel rather than being rejected up front. -/
theorem c3_no_validation_witness :
    generateBuf 1 1 [] StripeOrientation.Vertical = none :=
  c3_no_validation.1 1 1 StripeOrientation.Vertical (by decide) (by decide)

/-- C7: with a single color and positive dimensions, every pixel of
the generated buffer is that color. -/
theorem c7_single_color_uniform (width height : Nat) (col : Color)
    (o : StripeOrientation) (hw : 0 < width) (hh : 0 < height) :
    generateBuf width height [col] o =
      some (List.replicate height (List.replicate width col)) := by
  have hpix : ∀ x y, x < width → y < height →
      stripePixel width height [col] o x y = some col := by
    intro x y hx hy
    have hcoord : axisCoord o x y < axisLen o width height := by
      cases o with
      | Vertical => exact hx
      | Horizontal => exact hy
    have haxis : 0 < axisLen o width height := by
      cases o with
      | Vertical => exact hw
      | Horizontal => exact hh
    unfold stripePixel
    simp only [List.length_singleton, Nat.div_one]
    rw [if_neg (by omega), if_neg (by omega)]
    have hb : bandIndex (axisLen o width height) 1 (axisCoord o x y) = 0 := by
      unfold bandIndex
      rw [Nat.div_one, Nat.div_eq_of_lt hcoord]
    rw [hb]
    rfl
  have h1 : generateBuf width height [col] o =
      some ((List.range height).map fun _ => (List.range width).map fun _ => col) := by
    apply mapO_eq_map
    intro y hy
    apply mapO_eq_map
    intro x hx
    exact hpix x y (List.mem_range.mp hx) (List.mem_range.mp hy)
  rw [h1]
  simp [List.map_const', List.length_range]

/-- C7 witness: a 3×2 one-color request yields the uniform buffer. -/
theorem c7_single_color_uniform_witness :
    generateBuf 3 2 [Color.mk 7 8 9] StripeOrientation.Horizontal =
      some (List.replicate 2 (List.replicate 3 (Color.mk 7 8 9))) :=
  c7_single_color_uniform 3 2 (Color.mk 7 8 9) StripeOrientation.Horizontal
    (by decide) (by decide)

/-- C8: the Stripe Generator invoked with colors `(255,0,0)` and
`(0,255,0)`, width 4, height 2, Vertical orientation yields, in every
row, pure red in columns 0 and 1 and pure green in columns 2 and 3. -/
theorem c8_two_color_vertical :
    generateBuf 4 2 [Color.mk 255 0 0, Color.mk 0 255 0] StripeOrientation.Vertical =
      some [[Color.mk 255 0 0, Color.mk 255 0 0, Color.mk 0 255 0, Color.mk 0 255 0],
        [Color.mk 255 0 0, Color.mk 255 0 0, Color.mk 0 255 0, Color.mk 0 255 0]] := by
  decide

/-- C2 counterexample: with width 5, height 1 and two colors the band
width is `5 / 2 = 2`, so column 4 computes band index `4 / 2 = 2`,
out of bounds for the two-color list — the generator panics (`none`)
instead of completing with the remainder pixels in the final band. -/
theorem c2_counterexample :
    generateBuf 5 1 [Color.mk 255 0 0, Color.mk 0 255 0] StripeOrientation.Vertical =
      none := by
  decide

/-- C3 counterexample: a width of 0 is not rejected — the generator
completes successfully with an image of two empty rows, computing no
pixel at all. -/
theorem c3_counterexample :
    generateBuf 0 2 [Color.mk 255 0 0] StripeOrientation.Vertical =
      some [[], []] := by
  decide

/-- C4: the green channel is exactly the number of `z = z * z + c`
iterations performed from the pixel's swapped-coordinates starting
point until the orbit leaves radius 2 or 255 iterations are reached:
either it is 255 and every point checked stayed inside radius 2, or it
is the index of the first orbit point outside radius 2. -/
theorem c4_green_escape_count (x y : Nat) (hx : x < 800) (hy : y < 800) :
    (fractalGreen x y = 255 ∧ ∀ k < 255, normSq (orbit x y k) ≤ 4) ∨
      (fractalGreen x y < 255 ∧ 4 < normSq (orbit x y (fractalGreen x y)) ∧
        ∀ k < fractalGreen x y, normSq (orbit x y k) ≤ 4) := by
  rcases greenLoop_spec 255 (fractalZ0 x y) 0 with ⟨heq, hall⟩ | ⟨e, he, heq, hesc, hall⟩
  · left
    constructor
    · simpa [fractalGreen] using heq
    · intro k hk
      simpa [orbit] using hall k hk
  · right
    have hg : fractalGreen x y = e := by simpa [fractalGreen] using heq
    refine ⟨by omega, ?_, ?_⟩
    · rw [hg]
      simpa [orbit] using hesc
    · intro k hk
      simpa [orbit] using hall k (by omega)

/-- C4 witness: at pixel `(0, 0)` the starting point is
`-1.5 - 1.5i`, already outside radius 2, so the characterization is
realized with zero iterations. -/
theorem c4_green_escape_count_witness :
    (fractalGreen 0 0 = 255 ∧ ∀ k < 255, normSq (orbit 0 0 k) ≤ 4) ∨
      (fractalGreen 0 0 < 255 ∧ 4 < normSq (orbit 0 0 (fractalGreen 0 0)) ∧
        ∀ k < fractalGreen 0 0, normSq (orbit 0 0 k) ≤ 4) :=
  c4_green_escape_count 0 0 (by decide) (by decide)

/-- The specific gradient value of the fractal: for a coordinate below
800, `(0.3 * n) as u8` is `3 * n / 10`, which stays below 256, so the
low-8-bit reduction does not change it. -/
theorem u8OfRat_three_tenths (n : Nat) (hn : n < 800) :
    u8OfRat (3/10 * (n : ℚ)) = 3 * n / 10 % 256 := by
  have h1 : (3/10 : ℚ) * (n : ℚ) = ((3 * n : ℕ) : ℚ) / ((10 : ℕ) : ℚ) := by
    push_cast
    ring
  rw [u8OfRat, h1, Int.floor_toNat, Nat.floor_div_eq_div]
  have h2 : 3 * n / 10 < 256 := by omega
  rw [Nat.mod_eq_of_lt h2]
  exact min_eq_right (by omega)

/-- C5: on the 800×800 canvas the red channel is
`floor(0.3 * x) mod 256` and the blue channel is
`floor(0.3 * y) mod 256` (the values never reach 256, so the
low-8-bit reduction is the identity here). -/
theorem c5_gradient_channels (x y : Nat) (hx : x < 800) (hy : y < 800) :
    fractalRed x = 3 * x / 10 % 256 ∧ fractalBlue y = 3 * y / 10 % 256 :=
  ⟨u8OfRat_three_tenths x hx, u8OfRat_three_tenths y hy⟩

/-- C5 witness: at `(10, 20)` the channels are `3` and `6`. -/
theorem c5_gradient_channels_witness :
    fractalRed 10 = 3 * 10 / 10 % 256 ∧ fractalBlue 20 = 3 * 20 / 10 % 256 :=
  c5_gradient_channels 10 20 (by decide) (by decide)

/-- C6: the green channel never exceeds 255, and it is 255 only when
the orbit stays within radius 2 for all 255 checked iterations. -/
theorem c6_green_bounded (x y : Nat) (hx : x < 800) (hy : y < 800) :
    fractalGreen x y ≤ 255 ∧
      (fractalGreen x y = 255 → ∀ k < 255, normSq (orbit x y k) ≤ 4) := by
  rcases greenLoop_spec 255 (fractalZ0 x y) 0 with ⟨heq, hall⟩ | ⟨e, he, heq, hesc, hall⟩
  · have hg : fractalGreen x y = 255 := by simpa [fractalGreen] using heq
    exact ⟨by omega, fun _ k hk => by simpa [orbit] using hall k hk⟩
  · have hg : fractalGreen x y = e := by simpa [fractalGreen] using heq
    exact ⟨by omega, fun h255 => absurd h255 (by omega)⟩

/-- C6 witness: at `(0, 0)` the green channel is within bounds and the
escape characterization applies. -/
theorem c6_green_bounded_witness :
    fractalGreen 0 0 ≤ 255 ∧
      (fractalGreen 0 0 = 255 → ∀ k < 255, normSq (orbit 0 0 k) ≤ 4) :=
  c6_green_bounded 0 0 (by decide) (by decide)

/-- C9: each pixel of the fractal buffer is the pure per-coordinate
function `fractalPixel` of its own `(x, y)` — no other pixel and no
iteration-order effect enters, so identical invocations produce
identical buffers. -/
theorem c9_pixel_pure (x y : Nat) (hx : x < 800) (hy : y < 800) :
    (fractalImage[y]?).bind (fun row => row[x]?) = some (fractalPixel x y) := by
  unfold fractalImage
  rw [List.getElem?_map, List.getElem?_range hy]
  simp only [Option.map_some', Option.some_bind]
  rw [List.getElem?_map, List.getElem?_range hx, Option.map_some']

/-- C9 witness: the pixel lookup at `(0, 0)`. -/
theorem c9_pixel_pure_witness :
    (fractalImage[0]?).bind (fun row => row[0]?) = some (fractalPixel 0 0) :=
  c9_pixel_pure 0 0 (by decide) (by decide)

/-- C10: color parsing reads exactly the first three colon-separated
components. With fewer than three components the parse panics
(`none`); with at least three, the result is determined by parsing
components 0, 1 and 2 as `u8` (failure of any makes it `none`), and
any further components are ignored. -/
theorem c10_parse_first_three (cs : List Char) :
    ((splitCols cs).length < 3 → parseColor cs = none) ∧
      ∀ (v0 v1 v2 : List Char), (splitCols cs)[0]? = some v0 →
        (splitCols cs)[1]? = some v1 → (splitCols cs)[2]? = some v2 →
        parseColor cs = (parseU8 v0).bind fun r => (parseU8 v1).bind fun g =>
          (parseU8 v2).map fun b => Color.mk r g b := by
  constructor
  · intro hlt
    have h2 : (splitCols cs)[2]? = none := List.getElem?_eq_none (by omega)
    unfold parseColor
    rw [h2]
    cases (splitCols cs)[0]? <;> cases (splitCols cs)[1]? <;> simp
  · intro v0 v1 v2 h0 h1 h2
    unfold parseColor
    rw [h0, h1, h2]
    simp only [Option.some_bind]

/-- C10 witness: `"1:2:3:4"` has four components whose first three
parse, so it is accepted as `(1, 2, 3)` with the fourth ignored. -/
theorem c10_parse_first_three_witness :
    parseColor ['1', ':', '2', ':', '3', ':', '4'] = some (Color.mk 1 2 3) := by
  have h := (c10_parse_first_three ['1', ':', '2', ':', '3', ':', '4']).2
    ['1'] ['2'] ['3'] (by decide) (by decide) (by decide)
  rw [h]
  decide
